import Mathlib

/-!
Verification of the falsevisir image registration and fusion pipeline
(`src/falsevisir/falsevisir.py`) against its design specification.

Images are numpy float arrays: either 2-D (grey, `ndim = 2`) or 3-D
(`height × width × channels`, `ndim = 3`).  Sample values are embedded as
rationals.  Functions of the source file are embedded under their source
names; external library routines (skimage) that the source delegates to are
modelled from the specification and marked as such in their doc comments.
-/

/-- A numpy image array: `planar` is a 2-D (grey) array, `multi` is a 3-D
`height × width × channels` array.  The sample grid is a total function;
the declared dimensions are the array shape. -/
inductive Image where
  | planar (h w : Nat) (pix : Nat → Nat → ℚ)
  | multi (h w c : Nat) (pix : Nat → Nat → Nat → ℚ)

/-- numpy `ndim`: 2 for a grey array, 3 for a channelled array. -/
def Image.ndim : Image → Nat
  | .planar _ _ _ => 2
  | .multi _ _ _ _ => 3

/-- Array height (`shape[0]`). -/
def Image.height : Image → Nat
  | .planar h _ _ => h
  | .multi h _ _ _ => h

/-- Array width (`shape[1]`). -/
def Image.width : Image → Nat
  | .planar _ w _ => w
  | .multi _ w _ _ => w

/-- Channel count: 1 for a planar array, the channel axis otherwise. -/
def Image.channels : Image → Nat
  | .planar _ _ _ => 1
  | .multi _ _ c _ => c

/-- Canvas shape `(height, width)` (`shape[:2]`). -/
def Image.shape2 (im : Image) : Nat × Nat := (im.height, im.width)

/-- Sample accessor; the channel index is ignored on a planar array. -/
def Image.pixAt : Image → Nat → Nat → Nat → ℚ
  | .planar _ _ f => fun i j _ => f i j
  | .multi _ _ _ f => fun i j k => f i j k

/-- Default image used with `List.getD`. -/
def dimg : Image := .planar 0 0 (fun _ _ => 0)

instance : Inhabited Image := ⟨dimg⟩

/-- Luma weighting of a 3-channel sample grid, the coefficients of
`skimage.color.rgb2gray` (0.2125, 0.7154, 0.0721). -/
def lumaPix (f : Nat → Nat → Nat → ℚ) : Nat → Nat → ℚ :=
  fun i j => (2125 * f i j 0 + 7154 * f i j 1 + 721 * f i j 2) / 10000

/-- Modelled from the spec: `skimage.color.rgb2gray` (external library) reduces a
3-channel image to single-channel grey by standard luma weighting.  The source
only applies it to arrays with `ndim > 2`; on a planar array it is left as the
identity here (that call never happens in the embedded code paths). -/
def rgb2gray : Image → Image
  | .multi h w _ f => .planar h w (lumaPix f)
  | .planar h w f => .planar h w f

/-- `irr[:,:,0]`: reduce a channelled array to its first channel (2-D result). -/
def firstChannel : Image → Image
  | .multi h w _ f => .planar h w (fun i j => f i j 0)
  | .planar h w f => .planar h w f

-- OVERLAY IMAGES ----------------------------------------

/-- `blend_image(vis, irr, weight)` from the source: if `irr` is 2-D it is
replicated across 3 channels (`np.dstack((irr,irr,irr))`), then the weighted
average `(1 - weight) * vis + weight * irr` is taken per sample.  The numpy
elementwise sum requires equal shapes; a shape mismatch (which numpy would
reject) yields `none`. -/
def blend_image (vis irr : Image) (weight : ℚ) : Option Image :=
  let irr2 : Image :=
    match irr with
    | .planar h w g => .multi h w 3 (fun i j _ => g i j)
    | m => m
  match vis, irr2 with
  | .multi h w c v, .multi h2 w2 c2 g =>
      if h = h2 ∧ w = w2 ∧ c = c2 then
        some (.multi h w c (fun i j k => (1 - weight) * v i j k + weight * g i j k))
      else none
  | _, _ => none

/-- `false_image(vis, irr)` from the source: if `irr` has `ndim > 2` it is first
reduced to grey by `rgb2gray`; the output stacks (IR-grey, VIS red channel,
VIS green channel) — the VIS blue channel is dropped.  `vis[:,:,0]` on a 2-D
`vis`, a shape mismatch in `np.dstack`, or `rgb2gray` on a non-3-channel `irr`
would be numpy/skimage errors and yield `none`. -/
def false_image (vis irr : Image) : Option Image :=
  match vis with
  | .planar _ _ _ => none
  | .multi h w _ v =>
    match irr with
    | .planar h2 w2 g =>
        if h2 = h ∧ w2 = w then
          some (.multi h w 3 (fun i j k =>
            if k = 0 then g i j else if k = 1 then v i j 0 else v i j 1))
        else none
    | .multi h2 w2 c2 g =>
        if h2 = h ∧ w2 = w ∧ c2 = 3 then
          some (.multi h w 3 (fun i j k =>
            if k = 0 then lumaPix g i j else if k = 1 then v i j 0 else v i j 1))
        else none

-- GEOMETRY ----------------------------------------

/-- A 3×3 homogeneous transform matrix over the rationals
(`ProjectiveTransform.params`). -/
abbrev Mat3 := Fin 3 → Fin 3 → ℚ

/-- Matrix product `A @ B` of two 3×3 matrices, written out. -/
def mat3Mul (A B : Mat3) : Mat3 :=
  fun i j => A i 0 * B 0 j + A i 1 * B 1 j + A i 2 * B 2 j

/-- Apply a projective transform to an `(x, y)` point: homogeneous
multiplication followed by perspective division.  ℚ division by zero yields 0
where numpy would produce a non-finite value. -/
def applyHom (M : Mat3) (p : ℚ × ℚ) : ℚ × ℚ :=
  let d := M 2 0 * p.1 + M 2 1 * p.2 + M 2 2
  ((M 0 0 * p.1 + M 0 1 * p.2 + M 0 2) / d,
   (M 1 0 * p.1 + M 1 1 * p.2 + M 1 2) / d)

/-- Determinant of a 3×3 matrix. -/
def det3 (M : Mat3) : ℚ :=
  M 0 0 * (M 1 1 * M 2 2 - M 1 2 * M 2 1)
    - M 0 1 * (M 1 0 * M 2 2 - M 1 2 * M 2 0)
    + M 0 2 * (M 1 0 * M 2 1 - M 1 1 * M 2 0)

/-- Inverse of a 3×3 matrix via the adjugate (junk when the determinant is 0,
where skimage would raise). -/
def mat3Inv (M : Mat3) : Mat3 :=
  let d := det3 M
  ![![(M 1 1 * M 2 2 - M 1 2 * M 2 1) / d,
     (M 0 2 * M 2 1 - M 0 1 * M 2 2) / d,
     (M 0 1 * M 1 2 - M 0 2 * M 1 1) / d],
    ![(M 1 2 * M 2 0 - M 1 0 * M 2 2) / d,
     (M 0 0 * M 2 2 - M 0 2 * M 2 0) / d,
     (M 0 2 * M 1 0 - M 0 0 * M 1 2) / d],
    ![(M 1 0 * M 2 1 - M 1 1 * M 2 0) / d,
     (M 0 1 * M 2 0 - M 0 0 * M 2 1) / d,
     (M 0 0 * M 1 1 - M 0 1 * M 1 0) / d]]

/-- `SimilarityTransform(translation=(tx, ty))` parameter matrix. -/
def translationM (tx ty : ℚ) : Mat3 :=
  ![![1, 0, tx], ![0, 1, ty], ![0, 0, 1]]

/-- `SimilarityTransform(scale=s)` parameter matrix. -/
def simMat (s : ℚ) : Mat3 :=
  ![![s, 0, 0], ![0, s, 0], ![0, 0, 1]]

/-- Minimum of a list of rationals (`np.min`; 0 on the empty list, where numpy
would raise — all uses are on non-empty lists). -/
def listMin : List ℚ → ℚ
  | [] => 0
  | a :: l => l.foldl min a

/-- Maximum of a list of rationals (`np.max`). -/
def listMax : List ℚ → ℚ
  | [] => 0
  | a :: l => l.foldl max a

/-- Round a rational to the nearest sample index, clamping below 0. -/
def natRound (q : ℚ) : Nat := (round q).toNat

/-- Whether an `(x, y)` coordinate lies inside the extent of an `h × w` sample
grid. -/
def inBoundsQ (h w : Nat) (p : ℚ × ℚ) : Bool :=
  decide (0 ≤ p.1) && decide (p.1 ≤ (w : ℚ) - 1) &&
    decide (0 ≤ p.2) && decide (p.2 ≤ (h : ℚ) - 1)

/-- Modelled from the spec: `skimage.transform.warp` (external library).  Each
output pixel is taken from the source at the inverse-mapped coordinate
(interpolation abstracted to the nearest sample); coordinates outside the
source extent are filled with `cval` (§4.5: "Out-of-bounds samples fill
with 0").  The output array has exactly the requested `output_shape` and the
source's channel structure. -/
def warpResample (src : Image) (invMap : ℚ × ℚ → ℚ × ℚ) (outR outC : Nat)
    (cval : ℚ) : Image :=
  match src with
  | .planar h w f => .planar outR outC (fun i j =>
      if inBoundsQ h w (invMap ((j : ℚ), (i : ℚ))) then
        f (natRound (invMap ((j : ℚ), (i : ℚ))).2)
          (natRound (invMap ((j : ℚ), (i : ℚ))).1)
      else cval)
  | .multi h w c f => .multi outR outC c (fun i j k =>
      if inBoundsQ h w (invMap ((j : ℚ), (i : ℚ))) then
        f (natRound (invMap ((j : ℚ), (i : ℚ))).2)
          (natRound (invMap ((j : ℚ), (i : ℚ))).1) k
      else cval)

/-- The four corners `[(0,0), (0,r), (c,0), (c,r)]` of an image's frame, as
`(x, y)` points, exactly as `warp_image` lays them out. -/
def corners_of (im : Image) : List (ℚ × ℚ) :=
  [(0, 0), (0, (im.height : ℚ)), ((im.width : ℚ), 0),
   ((im.width : ℚ), (im.height : ℚ))]

/-- `np.vstack((warped_corners, corners))`: the corners of `images[0]`
transformed through the model, together with the untransformed corners. -/
def all_corners_of (im : Image) (M : Mat3) : List (ℚ × ℚ) :=
  (corners_of im).map (applyHom M) ++ corners_of im

/-- The shared output canvas `(rows, cols)`: the ceil-rounded extent of the
union bounding box of `images[0]`'s corners and their images under the model
(`output_shape = np.ceil((corner_max - corner_min)[::-1])`). -/
def canvas_of (im : Image) (M : Mat3) : Nat × Nat :=
  let xs := (all_corners_of im M).map Prod.fst
  let ys := (all_corners_of im M).map Prod.snd
  ((Int.ceil (listMax ys - listMin ys)).toNat,
   (Int.ceil (listMax xs - listMin xs)).toNat)

/-- The inverse map used to resample `images[0]` — only the translation offset
(`offset.inverse`). -/
def warp0_invmap (im : Image) (M : Mat3) : ℚ × ℚ → ℚ × ℚ :=
  applyHom (mat3Inv (translationM
    (-(listMin ((all_corners_of im M).map Prod.fst)))
    (-(listMin ((all_corners_of im M).map Prod.snd)))))

/-- The inverse map used to resample `images[1]` — the full composed transform
(`(model_robust + offset).inverse`; skimage composition `a + b` has parameter
matrix `b.params @ a.params`). -/
def warp1_invmap (im : Image) (M : Mat3) : ℚ × ℚ → ℚ × ℚ :=
  applyHom (mat3Inv (mat3Mul (translationM
    (-(listMin ((all_corners_of im M).map Prod.fst)))
    (-(listMin ((all_corners_of im M).map Prod.snd)))) M))

/-- `warp_image(images, model_robust)` from the source: compute the union
bounding box of `images[0]`'s corners and their transformed images, ceil-round
its extent into the shared `output_shape`, shift by `-corner_min`, and resample
`images[0]` under the offset only and `images[1]` under the composed transform,
both with `cval=0`. -/
def warp_image (images : Image × Image) (model_robust : Mat3) : Image × Image :=
  let rc := canvas_of images.1 model_robust
  (warpResample images.1 (warp0_invmap images.1 model_robust) rc.1 rc.2 0,
   warpResample images.2 (warp1_invmap images.1 model_robust) rc.1 rc.2 0)

-- MODEL VALIDATION ----------------------------------------

/-- A numpy float64 entry of a fitted model: a finite rational, or one of the
non-finite values NaN / +inf / -inf. -/
inductive RVal where
  | fin (q : ℚ)
  | nan
  | pinf
  | ninf
deriving DecidableEq

/-- `np.isnan` on one entry. -/
def RVal.isnanB : RVal → Bool
  | .nan => true
  | _ => false

/-- IEEE-style `<` on float values: any comparison with NaN is false; -inf is
below and +inf above every finite value. -/
def RVal.ltB : RVal → RVal → Bool
  | .nan, _ => false
  | _, .nan => false
  | .fin a, .fin b => decide (a < b)
  | .fin _, .pinf => true
  | .fin _, .ninf => false
  | .pinf, _ => false
  | .ninf, .ninf => false
  | .ninf, _ => true

/-- An entry is finite when it is a rational. -/
def RVal.isFiniteB : RVal → Bool
  | .fin _ => true
  | _ => false

/-- The finite part of an entry (0 on non-finite entries; only used once
validation has established finiteness). -/
def RVal.toRat : RVal → ℚ
  | .fin q => q
  | _ => 0

/-- The parameter matrix of a fitted model as numpy holds it. -/
abbrev Mat3RV := Fin 3 → Fin 3 → RVal

/-- Index list for the 3×3 parameter matrix. -/
def fins3 : List (Fin 3) := [0, 1, 2]

/-- `.all()` over the 3×3 entries of an elementwise boolean matrix. -/
def allEntries (p : Fin 3 → Fin 3 → Bool) : Bool :=
  fins3.all fun i => fins3.all fun j => p i j

/-- `.any()` over the 3×3 entries of an elementwise boolean matrix. -/
def anyEntry (p : Fin 3 → Fin 3 → Bool) : Bool :=
  fins3.any fun i => fins3.any fun j => p i j

/-- `CFG["model_robust_param_limits"][0]`: the lower per-entry bounds. -/
def param_limits_min : Mat3 :=
  ![![-10, -1, -100], ![-1, -2, -100], ![-(1 : ℚ)/10, -(2 : ℚ)/100, 0]]

/-- `CFG["model_robust_param_limits"][1]`: the upper per-entry bounds. -/
def param_limits_max : Mat3 :=
  ![![10, 1, 100], ![1, 2, 100], ![(1 : ℚ)/10, (2 : ℚ)/100, 2]]

/-- `transformation_valid(model_robust)` from the source: false when any
parameter is NaN; otherwise `(params > mmin).all() and (params < mmax).all()`
with the configured per-entry limits (elementwise IEEE comparisons, so a ±inf
entry also fails the bound checks). -/
def transformation_valid (params : Mat3RV) : Bool :=
  if anyEntry (fun i j => (params i j).isnanB) then false
  else
    allEntries (fun i j => RVal.ltB (.fin (param_limits_min i j)) (params i j)) &&
      allEntries (fun i j => RVal.ltB (params i j) (.fin (param_limits_max i j)))

-- RESIZE ----------------------------------------

/-- Minimum of a list of naturals (`min(heights)`; 0 on the empty list, where
Python would raise — all uses are on two-element lists). -/
def listMinNat : List Nat → Nat
  | [] => 0
  | a :: l => l.foldl min a

/-- Modelled from the spec: `skimage.transform.resize` (external library)
resamples an array to the requested `(nh, nw)` shape (area/linear interpolation
abstracted to the nearest sample); the channel structure is preserved. -/
def resizeTo (im : Image) (nh nw : Nat) : Image :=
  match im with
  | .planar h w f => .planar nh nw (fun i j =>
      f (natRound ((i : ℚ) * h / nh)) (natRound ((j : ℚ) * w / nw)))
  | .multi h w c f => .multi nh nw c (fun i j k =>
      f (natRound ((i : ℚ) * h / nh)) (natRound ((j : ℚ) * w / nw)) k)

/-- The effective common height of `resize_images`: the `new_height` argument
when given and truthy, and `min(heights)` otherwise (`new_height or
min(heights)` — Python treats 0 as falsy). -/
def eff_height (images : List Image) (new_height : Option Nat) : Nat :=
  match new_height with
  | some n => if n = 0 then listMinNat (images.map Image.height) else n
  | none => listMinNat (images.map Image.height)

/-- `resize_images(images, new_height)` from the source: every image is resized
to the common height with width `im.shape[1] * new_height // im.shape[0]`
(Python integer floor division). -/
def resize_images (images : List Image) (new_height : Option Nat) : List Image :=
  let nh := eff_height images new_height
  images.map (fun im => resizeTo im nh (im.width * nh / im.height))

-- WARP PIPELINE ----------------------------------------

/-- The front of `warp_images` up to the grey-conversion step of
`preprocess_images`: a channelled IR array is reduced to its first channel
(`irr = irr[:,:,0]`), both images are resized to the configured working height
(`CFG['downsize'] = 500`), and each resized image that still has `ndim > 2` is
reduced by `rgb2gray` (line `images_gray = [rgb2gray(im) if im.ndim > 2 else im
for im in images]`).  These are the images handed to feature extraction. -/
def matching_grays (vis irr : Image) : List Image :=
  let irr2 := if irr.ndim > 2 then firstChannel irr else irr
  let small := resize_images [vis, irr2] (some 500)
  small.map (fun im => if im.ndim > 2 then rgb2gray im else im)

/-- `warp_images(vis, irr)` from the source, with the feature-extraction /
matching / RANSAC stage summarized by its output `params` (that stage is
external library code driven by ambient randomness; `params` stands for
`model_robust.params`).  Control flow follows the source: the leading
`assert vis.ndim == 3`, the reduction of a channelled IR image to its first
channel, the validity check raising `ValueError("Transformation failed, not
enough similar features?")`, the rescaling of the fitted model by
`S_down + model_robust + S_up` with `downsize_scale = 500 / orig_height`, and
the final `warp_image` call on the full-resolution pair. -/
def warp_images_model (vis irr : Image) (params : Mat3RV) :
    Except String (Image × Image) :=
  if vis.ndim = 3 then
    let irr2 := if irr.ndim > 2 then firstChannel irr else irr
    if transformation_valid params then
      let s : ℚ := 500 / (vis.height : ℚ)
      let fullM := mat3Mul (simMat (1 / s))
        (mat3Mul (fun i j => (params i j).toRat) (simMat s))
      .ok (warp_image (vis, irr2) fullM)
    else .error "Transformation failed, not enough similar features?"
  else .error "AssertionError"

/-- The core of `process_pair` (I/O and display stripped): resize the pair to
the common minimum height, warp, then blend (weight 0.5) and compose the
false-color image from the warped pair. -/
def process_pair_core (vis irr : Image) (params : Mat3RV) :
    Except String (Image × Image × Option Image × Option Image) :=
  match resize_images [vis, irr] none with
  | [v1, i1] =>
    match warp_images_model v1 i1 params with
    | .error e => .error e
    | .ok (v2, i2) => .ok (v2, i2, blend_image v2 i2 (1/2), false_image v2 i2)
  | _ => .error "unexpected arity"

-- ROBUST MODEL ESTIMATION ----------------------------------------

/-- A correspondence pair of `(x, y)` points (source, destination). -/
abbrev PointPair := (ℚ × ℚ) × (ℚ × ℚ)

/-- Failure of the robust fit (§7: fewer raw matches than RANSAC's minimum
sample size, folding in "exhausting trials without finding any valid
sample"). -/
inductive RansacError where
  | insufficientCorrespondence
deriving DecidableEq

/-- A trial's random draw is valid when it picks exactly `k` distinct indices
of the `n` correspondence pairs (sampling without replacement). -/
def validDraw (n k : Nat) (d : List Nat) : Bool :=
  decide (d.length = k) && decide d.Nodup && d.all (fun x => decide (x < n))

/-- Squared residual of one correspondence under a candidate model. -/
def residual_sq (M : Mat3) (pr : PointPair) : ℚ :=
  let q := applyHom M pr.1
  (q.1 - pr.2.1) ^ 2 + (q.2 - pr.2.2) ^ 2

/-- Inlier mask of a candidate model over the correspondences: residual below
the threshold. -/
def inlier_mask (pairs : List PointPair) (thr : ℚ) (M : Mat3) : List Bool :=
  pairs.map (fun pr => decide (residual_sq M pr < thr * thr))

/-- Number of inliers in a mask. -/
def count_true (l : List Bool) : Nat := (l.filter id).length

/-- The correspondences selected by a boolean mask. -/
def selectMask (pairs : List PointPair) (mask : List Bool) : List PointPair :=
  ((pairs.zip mask).filter (fun pm => pm.2)).map (fun pm => pm.1)

/-- Modelled from the spec: `skimage.measure.ransac` (external library), §4.4.
Up to `max_trials` trials each draw `min_samples` correspondences at random
without replacement (the injected draw sequence `draws` is the random source)
and fit a candidate (`fitSample` abstracts the exact minimal-sample /
least-squares solver); the candidate with the largest inlier count wins, the
earliest-found winning a tie; the final model is refit on every inlier of the
best candidate.  If no trial can produce a valid sample — in particular when
fewer correspondences exist than `min_samples` — the fit fails with
`InsufficientCorrespondence` (§7). -/
def ransac_fit (pairs : List PointPair) (min_samples : Nat)
    (residual_threshold : ℚ) (max_trials : Nat) (draws : Nat → List Nat)
    (fitSample : List PointPair → Mat3) :
    Except RansacError (Mat3 × List Bool) :=
  match (List.range max_trials).filter
      (fun t => validDraw pairs.length min_samples (draws t)) with
  | [] => .error .insufficientCorrespondence
  | t0 :: rest =>
    let fitOf := fun t => fitSample ((draws t).filterMap (fun i => pairs.get? i))
    let score := fun t => count_true (inlier_mask pairs residual_threshold (fitOf t))
    let best := rest.foldl (fun acc t => if score t > score acc then t else acc) t0
    let inl := inlier_mask pairs residual_threshold (fitOf best)
    let M := fitSample (selectMask pairs inl)
    .ok (M, inlier_mask pairs residual_threshold M)

-- FEATURE EXTRACTION ----------------------------------------

/-- A keypoint as a `(row, col)` coordinate. -/
abbrev KP := Nat × Nat

/-- A fixed-length binary descriptor. -/
abbrev Desc := List Bool

/-- Extraction strategy, selected by the `method` configuration string. -/
inductive Method where
  | HARRIS
  | ORB
deriving DecidableEq

/-- Modelled from the spec: the validity mask of `skimage.feature.BRIEF`
(external library) — a keypoint is kept exactly when the `patch_size` patch
around it fits inside the image borders (§4.2: "Peaks too close to the image
border to support the patch are dropped"). -/
def briefMask (im : Image) (patch : Nat) (kp : KP) : Bool :=
  decide (patch / 2 ≤ kp.1) && decide (kp.1 + patch / 2 < im.height) &&
    decide (patch / 2 ≤ kp.2) && decide (kp.2 + patch / 2 < im.width)

/-- Modelled from the spec: a BRIEF binary descriptor — a fixed-length vector
of intensity comparisons over a fixed uniform sampling pattern around the
keypoint (the exact pattern is abstracted; only its fixed length and
per-keypoint computation matter here). -/
def briefDesc (im : Image) (patch : Nat) (kp : KP) : Desc :=
  (List.range 256).map (fun t =>
    decide (im.pixAt kp.1 (kp.2 + t % patch) 0 < im.pixAt (kp.1 + t / 16) kp.2 0))

/-- Modelled from the spec: a 32-byte rotation-aware ORB binary descriptor
(content abstracted as for BRIEF). -/
def orbDesc (im : Image) (kp : KP) : Desc :=
  (List.range 256).map (fun t =>
    decide (im.pixAt kp.1 (kp.2 + t % 31) 0 < im.pixAt (kp.1 + t / 16) kp.2 0))

/-- `extract(images, method, **kw)` from the source.  The detectors themselves
(`feature.corner_peaks(feature.corner_harris(im))` and ORB keypoint detection)
are external library code, passed in as `cornerPeaks` / `orbKeypoints`; ORB is
capped at `n_keypoints=1000`.  For HARRIS, the source keeps
`keypoints1[brief.mask]` and `brief.descriptors`: the keypoints whose patch
fits, filtered in lockstep with their descriptors. -/
def extract (images : List Image) (method : Method) (patch_size : Nat)
    (cornerPeaks : Image → List KP) (orbKeypoints : Image → List KP) :
    List (List KP) × List (List Desc) :=
  match method with
  | .ORB =>
      (images.map (fun im => (orbKeypoints im).take 1000),
       images.map (fun im => ((orbKeypoints im).take 1000).map (orbDesc im)))
  | .HARRIS =>
      (images.map (fun im => (cornerPeaks im).filter (briefMask im patch_size)),
       images.map (fun im =>
         ((cornerPeaks im).filter (briefMask im patch_size)).map
           (briefDesc im patch_size)))

-- HELPER LEMMAS ----------------------------------------

theorem foldl_min_le_init (l : List ℚ) (a : ℚ) : l.foldl min a ≤ a := by
  induction l generalizing a with
  | nil => exact le_refl a
  | cons b l ih => exact le_trans (ih (min a b)) (min_le_left a b)

theorem foldl_min_le_mem (l : List ℚ) (a x : ℚ) (hx : x ∈ l) :
    l.foldl min a ≤ x := by
  induction l generalizing a with
  | nil => cases hx
  | cons b l ih =>
    rcases List.mem_cons.mp hx with rfl | hx2
    · exact le_trans (foldl_min_le_init l (min a x)) (min_le_right a x)
    · exact ih (min a b) hx2

theorem listMin_le (l : List ℚ) (x : ℚ) (hx : x ∈ l) : listMin l ≤ x := by
  cases l with
  | nil => cases hx
  | cons a l =>
    rcases List.mem_cons.mp hx with rfl | hx2
    · exact foldl_min_le_init l x
    · exact foldl_min_le_mem l a x hx2

theorem mem_fins3 (i : Fin 3) : i ∈ fins3 := by
  fin_cases i <;> decide

theorem allEntries_iff (p : Fin 3 → Fin 3 → Bool) :
    allEntries p = true ↔ ∀ i j, p i j = true := by
  unfold allEntries
  constructor
  · intro hp i j
    exact List.all_eq_true.mp (List.all_eq_true.mp hp i (mem_fins3 i)) j (mem_fins3 j)
  · intro hp
    exact List.all_eq_true.mpr (fun i _ => List.all_eq_true.mpr (fun j _ => hp i j))

theorem anyEntry_iff (p : Fin 3 → Fin 3 → Bool) :
    anyEntry p = true ↔ ∃ i j, p i j = true := by
  unfold anyEntry
  constructor
  · intro hp
    obtain ⟨i, _, hi⟩ := List.any_eq_true.mp hp
    obtain ⟨j, _, hj⟩ := List.any_eq_true.mp hi
    exact ⟨i, j, hj⟩
  · rintro ⟨i, j, hj⟩
    exact List.any_eq_true.mpr ⟨i, mem_fins3 i,
      List.any_eq_true.mpr ⟨j, mem_fins3 j, hj⟩⟩

theorem shape2_warpResample (src : Image) (f : ℚ × ℚ → ℚ × ℚ) (r c : Nat)
    (cv : ℚ) : (warpResample src f r c cv).shape2 = (r, c) := by
  cases src <;> rfl

theorem pixAt_warpResample_oob (src : Image) (f : ℚ × ℚ → ℚ × ℚ) (r c : Nat)
    (cv : ℚ) (i j k : Nat)
    (hoob : inBoundsQ src.height src.width (f ((j : ℚ), (i : ℚ))) = false) :
    (warpResample src f r c cv).pixAt i j k = cv := by
  cases src <;>
    simp only [warpResample, Image.pixAt, Image.height, Image.width]
      at hoob ⊢ <;>
    rw [if_neg (by rw [hoob]; exact Bool.false_ne_true)]

theorem resizeTo_height (im : Image) (nh nw : Nat) :
    (resizeTo im nh nw).height = nh := by
  cases im <;> rfl

theorem resizeTo_width (im : Image) (nh nw : Nat) :
    (resizeTo im nh nw).width = nw := by
  cases im <;> rfl

theorem ndim_warpResample (src : Image) (f : ℚ × ℚ → ℚ × ℚ) (r c : Nat)
    (cv : ℚ) : (warpResample src f r c cv).ndim = src.ndim := by
  cases src <;> rfl

theorem ndim_resizeTo (im : Image) (nh nw : Nat) :
    (resizeTo im nh nw).ndim = im.ndim := by
  cases im <;> rfl

theorem ndim_firstChannel (im : Image) : (firstChannel im).ndim = 2 := by
  cases im <;> rfl

theorem nodup_bounded_length_le (d : List Nat) (n : Nat) (hnd : d.Nodup)
    (hlt : ∀ x ∈ d, x < n) : d.length ≤ n := by
  have h1 : d.toFinset.card = d.length := List.toFinset_card_of_nodup hnd
  have h2 : d.toFinset ⊆ Finset.range n := by
    intro x hx
    rw [List.mem_toFinset] at hx
    exact Finset.mem_range.mpr (hlt x hx)
  calc d.length = d.toFinset.card := h1.symm
    _ ≤ (Finset.range n).card := Finset.card_le_card h2
    _ = n := Finset.card_range n

-- CLAIM THEOREMS ----------------------------------------

/-- C9: the warp pipeline entry point requires the visible image to be a
3-dimensional (RGB) array — invoked with any 2-dimensional (grey) visible
image it fails the leading `assert vis.ndim == 3` before any processing. -/
theorem warp_requires_rgb_vis (h w : Nat) (f : Nat → Nat → ℚ) (irr : Image)
    (params : Mat3RV) :
    warp_images_model (.planar h w f) irr params = .error "AssertionError" := by
  simp [warp_images_model, Image.ndim]

/-- C8: for every input image list, both extractor variants (Harris+BRIEF and
ORB) and whatever the external detectors return, `extract` yields equally many
keypoints and descriptors for each image — keypoints without a valid
descriptor are dropped in lockstep with their descriptors. -/
theorem extract_counts_match (images : List Image) (method : Method)
    (patch_size : Nat) (cornerPeaks orbKeypoints : Image → List KP) :
    (extract images method patch_size cornerPeaks orbKeypoints).1.map List.length
      = (extract images method patch_size cornerPeaks orbKeypoints).2.map
          List.length := by
  cases method <;>
    simp [extract, List.map_map, Function.comp_def, List.length_map]

/-- C5: for every valid `(vis, ir)` pair of equal canvas size (`ir` grey or
3-channel), blending with weight 0 returns `vis` exactly — the grey-to-RGB
replication of `ir` does not affect the output — and blending with weight 1
returns `ir` replicated to 3 channels (resp. `ir` itself when already
3-channel). -/
theorem blend_weight_endpoints (h w : Nat) (v : Nat → Nat → Nat → ℚ)
    (g2 : Nat → Nat → ℚ) (g3 : Nat → Nat → Nat → ℚ) :
    blend_image (.multi h w 3 v) (.planar h w g2) 0 = some (.multi h w 3 v) ∧
    blend_image (.multi h w 3 v) (.planar h w g2) 1
      = some (.multi h w 3 (fun i j _ => g2 i j)) ∧
    blend_image (.multi h w 3 v) (.multi h w 3 g3) 0 = some (.multi h w 3 v) ∧
    blend_image (.multi h w 3 v) (.multi h w 3 g3) 1 = some (.multi h w 3 g3) := by
  refine ⟨?_, ?_, ?_, ?_⟩ <;>
  · show (if h = h ∧ w = w ∧ 3 = 3 then _ else none) = _
    rw [if_pos ⟨rfl, rfl, rfl⟩]
    refine congrArg some ?_
    refine congrArg (Image.multi h w 3) ?_
    funext i j k
    ring

/-- C4: for every valid visible image and every infrared image (grey or
3-channel) of the same canvas, `false_image` returns a 3-channel image whose
channels are, in order, the IR (reduced to grey by luma weighting when
multi-channel), the visible red channel and the visible green channel; the
visible blue channel never influences the output (two visible images agreeing
on red and green give identical outputs). -/
theorem false_color_channels (h w : Nat) (v v' : Nat → Nat → Nat → ℚ)
    (g2 : Nat → Nat → ℚ) (g3 : Nat → Nat → Nat → ℚ)
    (hblue : ∀ i j, v' i j 0 = v i j 0 ∧ v' i j 1 = v i j 1) :
    (∃ fv, false_image (.multi h w 3 v) (.planar h w g2) = some fv ∧
      fv.channels = 3 ∧ ∀ i j, fv.pixAt i j 0 = g2 i j ∧
        fv.pixAt i j 1 = v i j 0 ∧ fv.pixAt i j 2 = v i j 1) ∧
    (∃ fv, false_image (.multi h w 3 v) (.multi h w 3 g3) = some fv ∧
      fv.channels = 3 ∧ ∀ i j, fv.pixAt i j 0 = lumaPix g3 i j ∧
        fv.pixAt i j 1 = v i j 0 ∧ fv.pixAt i j 2 = v i j 1) ∧
    false_image (.multi h w 3 v') (.planar h w g2)
      = false_image (.multi h w 3 v) (.planar h w g2) ∧
    false_image (.multi h w 3 v') (.multi h w 3 g3)
      = false_image (.multi h w 3 v) (.multi h w 3 g3) := by
  refine ⟨⟨.multi h w 3 (fun i j k =>
      if k = 0 then g2 i j else if k = 1 then v i j 0 else v i j 1), ?_, rfl, ?_⟩,
    ⟨.multi h w 3 (fun i j k =>
      if k = 0 then lumaPix g3 i j else if k = 1 then v i j 0 else v i j 1),
      ?_, rfl, ?_⟩, ?_, ?_⟩
  · show (if h = h ∧ w = w then _ else none) = _
    rw [if_pos ⟨rfl, rfl⟩]
  · intro i j
    exact ⟨rfl, rfl, rfl⟩
  · show (if h = h ∧ w = w ∧ 3 = 3 then _ else none) = _
    rw [if_pos ⟨rfl, rfl, rfl⟩]
  · intro i j
    exact ⟨rfl, rfl, rfl⟩
  · show (if h = h ∧ w = w then _ else none) = (if h = h ∧ w = w then _ else none)
    rw [if_pos ⟨rfl, rfl⟩, if_pos ⟨rfl, rfl⟩]
    refine congrArg some (congrArg (Image.multi h w 3) ?_)
    funext i j k
    by_cases hk0 : k = 0
    · simp [hk0]
    · by_cases hk1 : k = 1
      · simp [hk0, hk1, (hblue i j).1]
      · simp [hk0, hk1, (hblue i j).2]
  · show (if h = h ∧ w = w ∧ 3 = 3 then _ else none)
      = (if h = h ∧ w = w ∧ 3 = 3 then _ else none)
    rw [if_pos ⟨rfl, rfl, rfl⟩, if_pos ⟨rfl, rfl, rfl⟩]
    refine congrArg some (congrArg (Image.multi h w 3) ?_)
    funext i j k
    by_cases hk0 : k = 0
    · simp [hk0]
    · by_cases hk1 : k = 1
      · simp [hk0, hk1, (hblue i j).1]
      · simp [hk0, hk1, (hblue i j).2]

/-- Witness for C4 at a concrete input: two 1×1 visible images agreeing on red
and green but differing on blue give the same false-color output. -/
theorem false_color_channels_witness :
    false_image (.multi 1 1 3 (fun _ _ k => if k = 2 then 7 else 1/2))
        (.multi 1 1 3 (fun _ _ _ => 0))
      = false_image (.multi 1 1 3 (fun _ _ _ => 1/2))
          (.multi 1 1 3 (fun _ _ _ => 0)) :=
  (false_color_channels 1 1 (fun _ _ _ => 1/2)
    (fun _ _ k => if k = 2 then 7 else 1/2) (fun _ _ => 0) (fun _ _ _ => 0)
    (fun _ _ => ⟨rfl, rfl⟩)).2.2.2

theorem transformation_valid_false_of_bad (params : Mat3RV)
    (hbad : (∃ i j, (params i j).isFiniteB = false) ∨
      (∃ i j q, params i j = .fin q ∧
        (q ≤ param_limits_min i j ∨ param_limits_max i j ≤ q))) :
    transformation_valid params = false := by
  unfold transformation_valid
  split
  · rfl
  · rename_i hnan
    rcases hbad with ⟨i, j, hnf⟩ | ⟨i, j, q, hq, hout⟩
    · cases hv : params i j with
      | fin q => rw [hv] at hnf; simp [RVal.isFiniteB] at hnf
      | nan =>
          exact absurd ((anyEntry_iff _).mpr ⟨i, j, by rw [hv]; rfl⟩) hnan
      | pinf =>
          have hA : allEntries
              (fun i j => RVal.ltB (params i j) (.fin (param_limits_max i j)))
              = false := by
            rw [Bool.eq_false_iff]
            intro hall
            have := (allEntries_iff _).mp hall i j
            rw [hv] at this
            simp [RVal.ltB] at this
          rw [hA, Bool.and_false]
      | ninf =>
          have hA : allEntries
              (fun i j => RVal.ltB (.fin (param_limits_min i j)) (params i j))
              = false := by
            rw [Bool.eq_false_iff]
            intro hall
            have := (allEntries_iff _).mp hall i j
            rw [hv] at this
            simp [RVal.ltB] at this
          rw [hA, Bool.false_and]
    · rcases hout with hle | hge
      · have hA : allEntries
            (fun i j => RVal.ltB (.fin (param_limits_min i j)) (params i j))
            = false := by
          rw [Bool.eq_false_iff]
          intro hall
          have := (allEntries_iff _).mp hall i j
          rw [hq] at this
          simp only [RVal.ltB, decide_eq_true_eq] at this
          exact absurd this (not_lt.mpr hle)
        rw [hA, Bool.false_and]
      · have hA : allEntries
            (fun i j => RVal.ltB (params i j) (.fin (param_limits_max i j)))
            = false := by
          rw [Bool.eq_false_iff]
          intro hall
          have := (allEntries_iff _).mp hall i j
          rw [hq] at this
          simp only [RVal.ltB, decide_eq_true_eq] at this
          exact absurd this (not_lt.mpr hge)
        rw [hA, Bool.and_false]

/-- C2: if the model returned by RANSAC has any non-finite parameter, or any
finite parameter outside its configured per-entry bound, then (for a visible
image that passes the entry assertion) the pipeline raises the
"Transformation failed" error and produces no warped output. -/
theorem invalid_model_raises (h w c : Nat) (v : Nat → Nat → Nat → ℚ)
    (irr : Image) (params : Mat3RV)
    (hbad : (∃ i j, (params i j).isFiniteB = false) ∨
      (∃ i j q, params i j = .fin q ∧
        (q ≤ param_limits_min i j ∨ param_limits_max i j ≤ q))) :
    warp_images_model (.multi h w c v) irr params
      = .error "Transformation failed, not enough similar features?" := by
  have hval := transformation_valid_false_of_bad params hbad
  simp [warp_images_model, Image.ndim, hval]

/-- A model whose perspective entry `[2][0]` is 5, far beyond its configured
limit of 0.1 (the boundary example of the spec). -/
def paramsPersp : Mat3RV :=
  ![![.fin 1, .fin 0, .fin 0], ![.fin 0, .fin 1, .fin 0],
    ![.fin 5, .fin 0, .fin 1]]

/-- Witness for C2: the pipeline rejects the model with `[2][0] = 5` and
raises the "Transformation failed" error. -/
theorem invalid_model_raises_witness :
    warp_images_model (.multi 2 2 3 (fun _ _ _ => 1/2))
        (.planar 2 2 (fun _ _ => 0)) paramsPersp
      = .error "Transformation failed, not enough similar features?" :=
  invalid_model_raises 2 2 3 (fun _ _ _ => 1/2) (.planar 2 2 (fun _ _ => 0))
    paramsPersp (Or.inr ⟨2, 0, 5, rfl, Or.inr (by
      rw [show param_limits_max 2 0 = 1/10 from rfl]; norm_num)⟩)

/-- C3: whenever the robust fit is invoked with fewer correspondence pairs
than the minimum sample size (default 10), no trial can draw a valid sample
without replacement, so the fit fails with `InsufficientCorrespondence` and
never silently returns a model — for every trial budget and every draw
sequence of the random source. -/
theorem ransac_insufficient (pairs : List PointPair) (rt : ℚ) (mt : Nat)
    (draws : Nat → List Nat) (fitSample : List PointPair → Mat3)
    (hlt : pairs.length < 10) :
    ransac_fit pairs 10 rt mt draws fitSample
      = .error .insufficientCorrespondence := by
  unfold ransac_fit
  have hfil : (List.range mt).filter
      (fun t => validDraw pairs.length 10 (draws t)) = [] := by
    rw [List.filter_eq_nil_iff]
    intro t _
    unfold validDraw
    simp only [Bool.and_eq_true, decide_eq_true_eq, List.all_eq_true,
      not_and]
    intro hlen hall
    have hle := nodup_bounded_length_le (draws t) pairs.length hlen.2 hall
    have h10 := hlen.1
    omega
  rw [hfil]

/-- Witness for C3: an empty correspondence set makes the fit fail with
`InsufficientCorrespondence`. -/
theorem ransac_insufficient_witness :
    ransac_fit [] 10 1 800 (fun _ => []) (fun _ _ _ => 0)
      = .error .insufficientCorrespondence :=
  ransac_insufficient [] 1 800 (fun _ => []) (fun _ _ _ => 0) (by decide)

/-- C1: for every pair of input images and every valid fitted model, the two
images returned by `warp_image` share exactly the same canvas height and
width — the ceil-rounded extent of the union bounding box of `imageA`'s
corners and those corners transformed through the model (`canvas_of`); the
`-corner_min` translation offset makes every corner coordinate non-negative,
and output samples whose inverse-mapped source coordinate is out of bounds
are filled with 0. -/
theorem warp_shared_canvas (imA imB : Image) (M : Mat3)
    (_hvalid : transformation_valid (fun i j => .fin (M i j)) = true) :
    (warp_image (imA, imB) M).1.shape2 = (warp_image (imA, imB) M).2.shape2 ∧
    (warp_image (imA, imB) M).1.shape2 = canvas_of imA M ∧
    (∀ p ∈ all_corners_of imA M,
      0 ≤ p.1 - listMin ((all_corners_of imA M).map Prod.fst) ∧
      0 ≤ p.2 - listMin ((all_corners_of imA M).map Prod.snd)) ∧
    (∀ (i j k : Nat),
      inBoundsQ imA.height imA.width (warp0_invmap imA M ((j : ℚ), (i : ℚ)))
          = false →
        (warp_image (imA, imB) M).1.pixAt i j k = 0) ∧
    (∀ (i j k : Nat),
      inBoundsQ imB.height imB.width (warp1_invmap imA M ((j : ℚ), (i : ℚ)))
          = false →
        (warp_image (imA, imB) M).2.pixAt i j k = 0) := by
  refine ⟨?_, ?_, ?_, ?_, ?_⟩
  · show (warpResample imA _ _ _ _).shape2 = (warpResample imB _ _ _ _).shape2
    rw [shape2_warpResample, shape2_warpResample]
  · show (warpResample imA _ _ _ _).shape2 = canvas_of imA M
    rw [shape2_warpResample]
  · intro p hp
    constructor
    · exact sub_nonneg.mpr (listMin_le _ _ (List.mem_map_of_mem Prod.fst hp))
    · exact sub_nonneg.mpr (listMin_le _ _ (List.mem_map_of_mem Prod.snd hp))
  · intro i j k hoob
    exact pixAt_warpResample_oob imA (warp0_invmap imA M) _ _ 0 i j k hoob
  · intro i j k hoob
    exact pixAt_warpResample_oob imB (warp1_invmap imA M) _ _ 0 i j k hoob

/-- The identity model, which satisfies the configured validity bounds. -/
def idModel : Mat3 := ![![1, 0, 0], ![0, 1, 0], ![0, 0, 1]]

/-- The identity model passes `transformation_valid`. -/
theorem idModel_valid :
    transformation_valid (fun i j => .fin (idModel i j)) = true := by
  unfold transformation_valid anyEntry allEntries fins3
  simp only [List.any_cons, List.any_nil, List.all_cons, List.all_nil]
  norm_num [RVal.isnanB, RVal.ltB, idModel, param_limits_min, param_limits_max,
    Matrix.cons_val_zero, Matrix.cons_val_one, Matrix.head_cons,
    Matrix.vecHead, Matrix.vecTail, Matrix.cons_val_succ, Function.comp]

/-- Witness for C1 at a concrete input: both warped outputs of a 2×3 RGB image
and a 2×2 grey image under the (valid) identity model share the computed
canvas shape. -/
theorem warp_shared_canvas_witness :
    (warp_image (Image.multi 2 3 3 (fun _ _ _ => 1/2),
        Image.planar 2 2 (fun _ _ => 0)) idModel).1.shape2
      = (warp_image (Image.multi 2 3 3 (fun _ _ _ => 1/2),
          Image.planar 2 2 (fun _ _ => 0)) idModel).2.shape2 ∧
    (warp_image (Image.multi 2 3 3 (fun _ _ _ => 1/2),
        Image.planar 2 2 (fun _ _ => 0)) idModel).1.shape2
      = canvas_of (Image.multi 2 3 3 (fun _ _ _ => 1/2)) idModel :=
  ⟨(warp_shared_canvas (Image.multi 2 3 3 (fun _ _ _ => 1/2))
      (Image.planar 2 2 (fun _ _ => 0)) idModel idModel_valid).1,
   (warp_shared_canvas (Image.multi 2 3 3 (fun _ _ _ => 1/2))
      (Image.planar 2 2 (fun _ _ => 0)) idModel idModel_valid).2.1⟩

/-- C6 counterexample: resizing a 3-row, 5-column image to target height 1
gives new width `5 * 1 // 3 = 1` (floor division, as the code computes), while
the claimed `round(5 * 1 / 3)` is 2. -/
theorem resize_width_not_round :
    ((resize_images [Image.planar 3 5 (fun _ _ => 0)] (some 1)).getD 0
        dimg).width = 1 ∧
    round ((5 : ℚ) * 1 / 3) = 2 ∧ (1 : ℕ) ≠ 2 := by
  refine ⟨rfl, ?_, by decide⟩
  rw [round_eq]
  rw [show (5 : ℚ) * 1 / 3 + 1 / 2 = 13 / 6 by norm_num]
  rw [show (2 : ℤ) = (13 : ℤ) / 6 by decide]
  exact Rat.floor_intCast_div_natCast 13 6

/-- C6 (amended): when resizing images to a common target height, each
image's new width is the floor of `orig_width * target_height / orig_height`
(Python integer division `//`), i.e. the greatest integer `w2` with
`w2 * orig_height ≤ orig_width * target_height`; the new height is the common
target height. -/
theorem resize_width_floor (images : List Image) (onh : Option Nat) (i : Nat)
    (hh : 0 < (images.getD i dimg).height) :
    ((resize_images images onh).getD i dimg).height = eff_height images onh ∧
    ((resize_images images onh).getD i dimg).width * (images.getD i dimg).height
        ≤ (images.getD i dimg).width * eff_height images onh ∧
    (images.getD i dimg).width * eff_height images onh
      < (((resize_images images onh).getD i dimg).width + 1)
          * (images.getD i dimg).height := by
  have hi : i < images.length := by
    by_contra hc
    push_neg at hc
    rw [List.getD_eq_default images dimg hc] at hh
    exact absurd hh (by decide)
  have hr : (resize_images images onh).getD i dimg
      = resizeTo images[i] (eff_height images onh)
          (images[i].width * eff_height images onh / images[i].height) := by
    unfold resize_images
    rw [List.getD_eq_getElem _ dimg (by simpa using hi), List.getElem_map]
  rw [List.getD_eq_getElem images dimg hi] at hh ⊢
  rw [hr, resizeTo_height, resizeTo_width]
  refine ⟨rfl, Nat.div_mul_le_self _ _, ?_⟩
  exact (Nat.div_lt_iff_lt_mul hh).mp (Nat.lt_succ_self _)

/-- Witness for C6 (amended) at a concrete input: the 3×5 image resized to
height 1 gets height 1 and the width floor-characterized. -/
theorem resize_width_floor_witness :
    ((resize_images [Image.planar 3 5 (fun _ _ => 0)] (some 1)).getD 0
        dimg).height
      = eff_height [Image.planar 3 5 (fun _ _ => 0)] (some 1) ∧
    ((resize_images [Image.planar 3 5 (fun _ _ => 0)] (some 1)).getD 0
          dimg).width
        * ([Image.planar 3 5 (fun _ _ => 0)].getD 0 dimg).height
      ≤ ([Image.planar 3 5 (fun _ _ => 0)].getD 0 dimg).width
          * eff_height [Image.planar 3 5 (fun _ _ => 0)] (some 1) ∧
    ([Image.planar 3 5 (fun _ _ => 0)].getD 0 dimg).width
        * eff_height [Image.planar 3 5 (fun _ _ => 0)] (some 1)
      < (((resize_images [Image.planar 3 5 (fun _ _ => 0)] (some 1)).getD 0
            dimg).width + 1)
          * ([Image.planar 3 5 (fun _ _ => 0)].getD 0 dimg).height :=
  resize_width_floor [Image.planar 3 5 (fun _ _ => 0)] (some 1) 0 (by decide)

/-- A 4×4 RGB visible image used in the C7 counterexample. -/
def visHalf : Image := .multi 4 4 3 (fun _ _ _ => 1/2)

/-- A 4×4 3-channel infrared image whose first channel is constantly 1 while
its luma grey value is 2125/10000 = 17/80. -/
def irrRed : Image := .multi 4 4 3 (fun _ _ k => if k = 0 then 1 else 0)

/-- C7 counterexample: the grey infrared image handed to feature matching is
the input's first channel (value 1 at pixel (0,0)), not its luma-weighted
grey reduction (17/80) — a multi-channel infrared image is not converted by
luma weighting in preprocessing. -/
theorem preprocess_ir_not_luma :
    ((matching_grays visHalf irrRed).getD 1 dimg).pixAt 0 0 0 = 1 ∧
    (rgb2gray (resizeTo irrRed 500 (4 * 500 / 4))).pixAt 0 0 0 = 17/80 ∧
    ((1 : ℚ) ≠ 17/80) := by
  refine ⟨rfl, ?_, by norm_num⟩
  norm_num [irrRed, resizeTo, rgb2gray, Image.pixAt, lumaPix, natRound]

/-- C7 (amended): in the matching preprocessing only the visible image is
converted to grey by standard luma weighting; a multi-channel infrared image
is instead reduced to its first channel in `warp_images` before the
preprocessing stage, so it reaches the grey-conversion step already 2-D and is
left unchanged there (no luma weighting is applied to it). -/
theorem preprocess_gray_stage (h w h2 w2 c2 : Nat) (v : Nat → Nat → Nat → ℚ)
    (g : Nat → Nat → Nat → ℚ) :
    matching_grays (.multi h w 3 v) (.multi h2 w2 c2 g)
      = [rgb2gray (resizeTo (.multi h w 3 v) 500 (w * 500 / h)),
         resizeTo (.planar h2 w2 (fun i j => g i j 0)) 500 (w2 * 500 / h2)] :=
  rfl

theorem warp_images_model_ir_ndim (vis irr : Image) (params : Mat3RV) :
    match warp_images_model vis irr params with
    | .ok pr => pr.2.ndim = 2
    | .error _ => True := by
  by_cases h3 : vis.ndim = 3
  · by_cases htv : transformation_valid params = true
    · simp only [warp_images_model, h3, htv, if_true]
      show (warpResample (if irr.ndim > 2 then firstChannel irr else irr)
        _ _ _ _).ndim = 2
      rw [ndim_warpResample]
      split
      · exact ndim_firstChannel irr
      · rename_i hnd
        cases irr with
        | planar a b g => rfl
        | multi a b c g =>
            exact absurd (by simp [Image.ndim] : (Image.multi a b c g).ndim > 2)
              hnd
    · simp [warp_images_model, h3, htv]
  · simp [warp_images_model, h3]

/-- C10: whenever the warp pipeline succeeds, the warped infrared image it
returns is a single-channel 2-D array (a multi-channel infrared input having
been reduced to its first channel before warping), so the blend and
false-color stages of `process_pair` always receive a single-channel IR
image. -/
theorem warped_ir_single_channel (vis irr : Image) (params : Mat3RV) :
    match process_pair_core vis irr params with
    | .ok out => out.2.1.ndim = 2
    | .error _ => True := by
  have key : ∀ v1 i1 : Image,
      (match (match warp_images_model v1 i1 params with
        | .error e =>
            (.error e : Except String (Image × Image × Option Image × Option Image))
        | .ok (v2, i2) => .ok (v2, i2, blend_image v2 i2 (1/2),
            false_image v2 i2)) with
      | .ok out => out.2.1.ndim = 2
      | .error _ => True) := by
    intro v1 i1
    have h := warp_images_model_ir_ndim v1 i1 params
    rcases hw : warp_images_model v1 i1 params with e | pr
    · simp [hw]
    · rw [hw] at h
      obtain ⟨v2, i2⟩ := pr
      simpa using h
  exact key _ _
